import Mathlib

/-!
Verification development for the controller cache of astro-rpc.

The core under study is the reference tracker inside `useGet`
(module-level maps `refCounts` and `deletionTimers`, the mount effect,
its cleanup, and the grace-period eviction timer), together with the
controller registry `Get` (`put` / `delete`).  The tracker is embedded
directly from the source; the registry's own module is not part of the
sources at hand, so it is modelled from the specification where noted.

Timers are modelled explicitly: every `setTimeout` call allocates a
fresh timer id, recorded in `timers` together with its key and duration;
`clearTimeout` adds the id to `canceled`; a timer that actually runs its
callback is recorded in `fired`.  A timer can run its callback exactly
when it has been scheduled and is neither canceled nor fired
("pending").
-/

/-- String-keyed partial maps, modelling the JS `Map` objects. -/
def SMap (α : Type) : Type := String → Option α

/-- `Map.set`. -/
def mapInsert {α : Type} (m : SMap α) (k : String) (v : α) : SMap α :=
  fun k' => if k' = k then some v else m k'

/-- `Map.delete`. -/
def mapErase {α : Type} (m : SMap α) (k : String) : SMap α :=
  fun k' => if k' = k then none else m k'

/-- The empty map. -/
def mapEmpty {α : Type} : SMap α := fun _ => none

/-- `GC_GRACE_PERIOD_MS` from the source (the grace duration, in ms). -/
def GC_GRACE_PERIOD_MS : Nat := 5000

/-- One `setTimeout` allocation: its handle id, the key whose eviction it
guards, and the duration it was scheduled with. -/
structure TimerRec where
  id : Nat
  key : String
  duration : Nat
deriving DecidableEq, Repr

/-- The process-wide mutable state: the tracker's two module-level maps
(`refCounts`, live counts; `deletionTimers`, pending timer handles per
key), the timer bookkeeping, and the registry's instance map.  Counts
are `Int` because JS numbers are not clamped at zero.  Instances are
identified by the `Nat` drawn from `nextInstanceId` at construction. -/
structure State where
  refCounts : SMap Int
  deletionTimers : SMap Nat
  timers : List TimerRec
  canceled : List Nat
  fired : List Nat
  registry : SMap Nat
  nextTimerId : Nat
  nextInstanceId : Nat

/-- The initial state: all maps empty, no timers ever allocated. -/
def initState : State :=
  { refCounts := mapEmpty
    deletionTimers := mapEmpty
    timers := []
    canceled := []
    fired := []
    registry := mapEmpty
    nextTimerId := 0
    nextInstanceId := 0 }

/-- `const baseTag = ControllerClass.name || "AnonymousController"`:
JS `||` falls through on the falsy empty string. -/
def computeBaseTag (name : String) : String :=
  if name = "" then "AnonymousController" else name

/-- `const tag = tagSuffix ? baseTag + "-" + tagSuffix : baseTag`:
the key used by both the registry and the tracker.  `tagSuffix` is
`none` when the option was omitted; a supplied empty string is falsy in
JS and also selects the bare base tag. -/
def computeKey (name : String) (tagSuffix : Option String) : String :=
  let base := computeBaseTag name
  match tagSuffix with
  | some t => if t = "" then base else base ++ "-" ++ t
  | none => base

/-- Modelled from the spec: the registry module (`Get` from `./cache`)
is not among the sources at hand, only its caller `useGet` is.  `put`:
if an entry exists for the key it is returned unchanged (construction
args ignored); otherwise the constructor runs — on success the fresh
instance is stored under the key and returned, on failure the error
propagates and the entry is not stored.  `ctorOk` abstracts whether the
constructor succeeds; a fresh instance is the current `nextInstanceId`. -/
def Get.put (s : State) (k : String) (ctorOk : Bool) : State × Except Unit Nat :=
  match s.registry k with
  | some i => (s, Except.ok i)
  | none =>
    if ctorOk then
      ({ s with
          registry := mapInsert s.registry k s.nextInstanceId
          nextInstanceId := s.nextInstanceId + 1 },
        Except.ok s.nextInstanceId)
    else (s, Except.error ())

/-- Modelled from the spec: registry `delete` removes and discards the
entry if present; no-op if absent. -/
def Get.delete (s : State) (k : String) : State :=
  { s with registry := mapErase s.registry k }

/-- The cancellation prologue of the mount effect in `useGet`:
`const pending = deletionTimers.get(tag); if (pending) { clearTimeout(pending); deletionTimers.delete(tag); }`. -/
def clearPending (s : State) (k : String) : State :=
  match s.deletionTimers k with
  | some t =>
    { s with
        canceled := t :: s.canceled
        deletionTimers := mapErase s.deletionTimers k }
  | none => s

/-- Attach — the body of `useGet`'s mount effect: cancel any pending
eviction timer for the key, then
`refCounts.set(tag, (refCounts.get(tag) ?? 0) + 1)`. -/
def attach (s : State) (k : String) : State :=
  let s := clearPending s k
  { s with refCounts := mapInsert s.refCounts k (((s.refCounts k).getD 0) + 1) }

/-- Detach — the effect's cleanup function:
`const current = (refCounts.get(tag) ?? 1) - 1;` then if `current <= 0`
delete the count and schedule a fresh `setTimeout` of
`GC_GRACE_PERIOD_MS` whose handle replaces the `deletionTimers` entry;
otherwise store the decremented count. -/
def detach (s : State) (k : String) : State :=
  let current : Int := ((s.refCounts k).getD 1) - 1
  if current ≤ 0 then
    { s with
        refCounts := mapErase s.refCounts k
        timers := s.timers ++ [⟨s.nextTimerId, k, GC_GRACE_PERIOD_MS⟩]
        deletionTimers := mapInsert s.deletionTimers k s.nextTimerId
        nextTimerId := s.nextTimerId + 1 }
  else
    { s with refCounts := mapInsert s.refCounts k current }

/-- The `setTimeout` callback scheduled by detach:
`if (!refCounts.has(tag)) { Get.delete(...) } deletionTimers.delete(tag)`.
Running it marks the timer as fired. -/
def fireTimer (s : State) (tr : TimerRec) : State :=
  let s := { s with fired := tr.id :: s.fired }
  let s :=
    if (s.refCounts tr.key).isSome then s
    else Get.delete s tr.key
  { s with deletionTimers := mapErase s.deletionTimers tr.key }

/-- A timer can still run its callback: scheduled, not canceled, not
yet fired. -/
def timerPending (s : State) (tr : TimerRec) : Prop :=
  tr ∈ s.timers ∧ tr.id ∉ s.canceled ∧ tr.id ∉ s.fired

instance (s : State) (tr : TimerRec) : Decidable (timerPending s tr) := by
  unfold timerPending; infer_instance

/-- The timers for key `k` that can still run their callback. -/
def pendingFor (s : State) (k : String) : List TimerRec :=
  s.timers.filter fun tr =>
    tr.key == k && !(s.canceled.contains tr.id) && !(s.fired.contains tr.id)

/-- One mount of `useGet`: the render's `useMemo` calls `Get.put`; if it
throws, the render fails and the mount effect (attach) never runs; on
success the effect attaches the key. -/
def useGetMount (s : State) (k : String) (ctorOk : Bool) : State × Except Unit Nat :=
  match Get.put s k ctorOk with
  | (s', Except.ok i) => (attach s' k, Except.ok i)
  | (s', Except.error e) => (s', Except.error e)

/-- `Get.put` along its success path, for the event semantics. -/
def putOk (s : State) (k : String) : State := (Get.put s k true).1

/-- One event of the event loop, with its enabledness guard.  A detach
only happens for a key with a live count: in React every cleanup is
paired with an earlier run of the same effect, so the binding layer
never detaches a key it has not attached.  A timer runs its callback
only while scheduled, uncanceled and unfired. -/
inductive Step : State → State → Prop where
  | attach (s : State) (k : String) : Step s (attach s k)
  | detach (s : State) (k : String) (h : (s.refCounts k).isSome = true) :
      Step s (detach s k)
  | fire (s : State) (tr : TimerRec) (h : timerPending s tr) :
      Step s (fireTimer s tr)
  | put (s : State) (k : String) : Step s (putOk s k)

/-- States reachable from the empty initial state by event-loop steps. -/
inductive Reachable : State → Prop where
  | init : Reachable initState
  | step {s s' : State} : Reachable s → Step s s' → Reachable s'

/-- Zero or more event-loop steps. -/
def Steps : State → State → Prop := Relation.ReflTransGen Step

@[simp]
theorem mapInsert_same {α : Type} (m : SMap α) (k : String) (v : α) :
    mapInsert m k v k = some v := by
  simp [mapInsert]

theorem mapInsert_other {α : Type} (m : SMap α) {k k' : String} (v : α)
    (h : k' ≠ k) : mapInsert m k v k' = m k' := by
  simp [mapInsert, h]

@[simp]
theorem mapErase_same {α : Type} (m : SMap α) (k : String) :
    mapErase m k k = none := by
  simp [mapErase]

theorem mapErase_other {α : Type} (m : SMap α) {k k' : String}
    (h : k' ≠ k) : mapErase m k k' = m k' := by
  simp [mapErase, h]

/-- The inductive invariant maintained by every event-loop step:
the pending-timer map holds exactly the timers that can still fire
(sound and complete), timer ids are fresh and distinct, live counts are
strictly positive, a key with a live count has no pending-map entry, and
registry instances are distinct and below the allocation counter. -/
structure TrackerInv (s : State) : Prop where
  mapSound : ∀ k t, s.deletionTimers k = some t →
    ∃ tr, tr ∈ s.timers ∧ tr.id = t ∧ tr.key = k ∧
      t ∉ s.canceled ∧ t ∉ s.fired
  pendingInMap : ∀ tr, tr ∈ s.timers → tr.id ∉ s.canceled →
    tr.id ∉ s.fired → s.deletionTimers tr.key = some tr.id
  timerIdLt : ∀ tr, tr ∈ s.timers → tr.id < s.nextTimerId
  timerIdsDistinct : s.timers.Pairwise (fun a b => a.id ≠ b.id)
  canceledLt : ∀ t, t ∈ s.canceled → t < s.nextTimerId
  firedLt : ∀ t, t ∈ s.fired → t < s.nextTimerId
  countsPos : ∀ k c, s.refCounts k = some c → 0 < c
  countNoTimer : ∀ k, (s.refCounts k).isSome = true → s.deletionTimers k = none
  regLt : ∀ k i, s.registry k = some i → i < s.nextInstanceId
  regInj : ∀ k k' i, s.registry k = some i → s.registry k' = some i → k = k'

theorem inv_init : TrackerInv initState := by
  constructor <;> intros <;> simp_all [initState, mapEmpty]

theorem attach_refCounts (s : State) (k : String) :
    (attach s k).refCounts
      = mapInsert s.refCounts k (((s.refCounts k).getD 0) + 1) := by
  unfold attach clearPending
  cases h : s.deletionTimers k <;> simp [h]

theorem attach_deletionTimers (s : State) (k : String) :
    (attach s k).deletionTimers = mapErase s.deletionTimers k := by
  unfold attach clearPending
  cases h : s.deletionTimers k with
  | none =>
    funext k'
    by_cases hk : k' = k <;> simp [hk, mapErase, h]
  | some t => simp [h]

theorem attach_timers (s : State) (k : String) :
    (attach s k).timers = s.timers := by
  unfold attach clearPending
  cases h : s.deletionTimers k <;> simp [h]

theorem attach_fired (s : State) (k : String) :
    (attach s k).fired = s.fired := by
  unfold attach clearPending
  cases h : s.deletionTimers k <;> simp [h]

theorem attach_registry (s : State) (k : String) :
    (attach s k).registry = s.registry := by
  unfold attach clearPending
  cases h : s.deletionTimers k <;> simp [h]

theorem attach_nextTimerId (s : State) (k : String) :
    (attach s k).nextTimerId = s.nextTimerId := by
  unfold attach clearPending
  cases h : s.deletionTimers k <;> simp [h]

theorem attach_nextInstanceId (s : State) (k : String) :
    (attach s k).nextInstanceId = s.nextInstanceId := by
  unfold attach clearPending
  cases h : s.deletionTimers k <;> simp [h]

theorem attach_canceled_some (s : State) {k : String} {t : Nat}
    (h : s.deletionTimers k = some t) :
    (attach s k).canceled = t :: s.canceled := by
  unfold attach clearPending
  simp [h]

theorem attach_canceled_none (s : State) {k : String}
    (h : s.deletionTimers k = none) :
    (attach s k).canceled = s.canceled := by
  unfold attach clearPending
  simp [h]

theorem attach_canceled_sub (s : State) (k : String) :
    s.canceled ⊆ (attach s k).canceled := by
  cases h : s.deletionTimers k with
  | none =>
    rw [attach_canceled_none s h]
    exact List.Subset.refl s.canceled
  | some t =>
    rw [attach_canceled_some s h]
    exact List.subset_cons_self t s.canceled

/-- Distinct timer ids identify timers uniquely in the allocation list. -/
theorem timer_id_inj {s : State} (h : TrackerInv s) {tr tr' : TimerRec}
    (h1 : tr ∈ s.timers) (h2 : tr' ∈ s.timers) (h3 : tr.id = tr'.id) :
    tr = tr' := by
  by_contra hne
  exact (h.timerIdsDistinct.forall (fun a b hab => (hab ∘ Eq.symm)) h1 h2 hne) h3

theorem inv_attach {s : State} (h : TrackerInv s) (k : String) :
    TrackerInv (attach s k) := by
  constructor
  · intro k' t' hmt
    rw [attach_deletionTimers] at hmt
    by_cases hk : k' = k
    · subst hk; simp [mapErase] at hmt
    · rw [mapErase_other _ hk] at hmt
      obtain ⟨tr, htr, hid, hkey, hnc, hnf⟩ := h.mapSound k' t' hmt
      refine ⟨tr, ?_, hid, hkey, ?_, ?_⟩
      · rw [attach_timers]; exact htr
      · cases hc : s.deletionTimers k with
        | none => rw [attach_canceled_none s hc]; exact hnc
        | some t0 =>
          rw [attach_canceled_some s hc]
          intro hmem
          rcases List.mem_cons.mp hmem with heq | hmem'
          · subst heq
            obtain ⟨tr0, htr0, hid0, hkey0, _, _⟩ := h.mapSound k t' hc
            have htt : tr = tr0 := timer_id_inj h htr htr0 (by rw [hid, hid0])
            exact hk (by rw [← hkey, htt, hkey0])
          · exact hnc hmem'
      · rw [attach_fired]; exact hnf
  · intro tr htr hnc hnf
    rw [attach_timers] at htr
    rw [attach_fired] at hnf
    have hnc' : tr.id ∉ s.canceled := fun hx => hnc (attach_canceled_sub s k hx)
    have hmap := h.pendingInMap tr htr hnc' hnf
    rw [attach_deletionTimers]
    by_cases hk : tr.key = k
    · exfalso
      rw [hk] at hmap
      have hcc := attach_canceled_some s hmap
      exact hnc (by rw [hcc]; exact List.mem_cons_self _ _)
    · rw [mapErase_other _ hk]; exact hmap
  · intro tr htr
    rw [attach_timers] at htr
    rw [attach_nextTimerId]
    exact h.timerIdLt tr htr
  · rw [attach_timers]; exact h.timerIdsDistinct
  · intro t ht
    rw [attach_nextTimerId]
    cases hc : s.deletionTimers k with
    | none =>
      rw [attach_canceled_none s hc] at ht
      exact h.canceledLt t ht
    | some t0 =>
      rw [attach_canceled_some s hc] at ht
      rcases List.mem_cons.mp ht with heq | hm
      · subst heq
        obtain ⟨tr0, htr0, hid0, _, _, _⟩ := h.mapSound k t hc
        rw [← hid0]
        exact h.timerIdLt tr0 htr0
      · exact h.canceledLt t hm
  · intro t ht
    rw [attach_fired] at ht
    rw [attach_nextTimerId]
    exact h.firedLt t ht
  · intro k' c hc
    rw [attach_refCounts] at hc
    by_cases hk : k' = k
    · subst hk
      rw [mapInsert_same] at hc
      cases hrc : s.refCounts k' with
      | none => simp [hrc] at hc; omega
      | some c0 =>
        simp [hrc] at hc
        have := h.countsPos k' c0 hrc
        omega
    · rw [mapInsert_other _ _ hk] at hc
      exact h.countsPos k' c hc
  · intro k' hk'
    rw [attach_deletionTimers]
    by_cases hk : k' = k
    · subst hk; exact mapErase_same _ _
    · rw [mapErase_other _ hk]
      rw [attach_refCounts, mapInsert_other _ _ hk] at hk'
      exact h.countNoTimer k' hk'
  · intro k' i hi
    rw [attach_registry] at hi
    rw [attach_nextInstanceId]
    exact h.regLt k' i hi
  · intro k1 k2 i h1 h2
    rw [attach_registry] at h1 h2
    exact h.regInj k1 k2 i h1 h2

theorem detach_eq_sched {s : State} {k : String}
    (hc : ((s.refCounts k).getD 1) - 1 ≤ (0 : Int)) :
    detach s k =
      { s with
          refCounts := mapErase s.refCounts k
          timers := s.timers ++ [⟨s.nextTimerId, k, GC_GRACE_PERIOD_MS⟩]
          deletionTimers := mapInsert s.deletionTimers k s.nextTimerId
          nextTimerId := s.nextTimerId + 1 } := by
  simp [detach, hc]

theorem detach_eq_dec {s : State} {k : String}
    (hc : ¬ ((s.refCounts k).getD 1) - 1 ≤ (0 : Int)) :
    detach s k =
      { s with
          refCounts := mapInsert s.refCounts k (((s.refCounts k).getD 1) - 1) } := by
  simp [detach, hc]

theorem inv_detach {s : State} (h : TrackerInv s) (k : String)
    (hk : (s.refCounts k).isSome = true) : TrackerInv (detach s k) := by
  by_cases hc : ((s.refCounts k).getD 1) - 1 ≤ (0 : Int)
  · rw [detach_eq_sched hc]
    constructor
    · intro k' t' hmt
      dsimp only at hmt ⊢
      by_cases hkk : k' = k
      · subst hkk
        rw [mapInsert_same] at hmt
        obtain rfl : s.nextTimerId = t' := by injection hmt
        refine ⟨⟨s.nextTimerId, k', GC_GRACE_PERIOD_MS⟩, ?_, rfl, rfl, ?_, ?_⟩
        · exact List.mem_append_right _ (List.mem_singleton_self _)
        · intro hmem
          exact absurd (h.canceledLt _ hmem) (lt_irrefl _)
        · intro hmem
          exact absurd (h.firedLt _ hmem) (lt_irrefl _)
      · rw [mapInsert_other _ _ hkk] at hmt
        obtain ⟨tr, htr, hid, hkey, hnc, hnf⟩ := h.mapSound k' t' hmt
        exact ⟨tr, List.mem_append_left _ htr, hid, hkey, hnc, hnf⟩
    · intro tr htr hncc hnff
      dsimp only at htr hncc hnff ⊢
      rcases List.mem_append.mp htr with hold | hfresh
      · have hmap := h.pendingInMap tr hold hncc hnff
        by_cases hkk : tr.key = k
        · exfalso
          have hnone := h.countNoTimer k hk
          rw [hkk, hnone] at hmap
          exact Option.noConfusion hmap
        · rw [mapInsert_other _ _ hkk]
          exact hmap
      · have heq : tr = ⟨s.nextTimerId, k, GC_GRACE_PERIOD_MS⟩ := by
          simpa using hfresh
        subst heq
        simp [mapInsert_same]
    · intro tr htr
      dsimp only at htr ⊢
      rcases List.mem_append.mp htr with hold | hfresh
      · exact Nat.lt_succ_of_lt (h.timerIdLt tr hold)
      · have heq : tr = ⟨s.nextTimerId, k, GC_GRACE_PERIOD_MS⟩ := by
          simpa using hfresh
        subst heq
        exact Nat.lt_succ_self _
    · dsimp only
      rw [List.pairwise_append]
      refine ⟨h.timerIdsDistinct, List.pairwise_singleton _ _, ?_⟩
      intro a ha b hb
      have hb' : b = ⟨s.nextTimerId, k, GC_GRACE_PERIOD_MS⟩ := by simpa using hb
      subst hb'
      have hlt := h.timerIdLt a ha
      dsimp only
      omega
    · intro t ht
      exact Nat.lt_succ_of_lt (h.canceledLt t ht)
    · intro t ht
      exact Nat.lt_succ_of_lt (h.firedLt t ht)
    · intro k' c hcnt
      dsimp only at hcnt
      by_cases hkk : k' = k
      · subst hkk
        rw [mapErase_same] at hcnt
        exact Option.noConfusion hcnt
      · rw [mapErase_other _ hkk] at hcnt
        exact h.countsPos k' c hcnt
    · intro k' hk'
      dsimp only at hk' ⊢
      by_cases hkk : k' = k
      · subst hkk
        rw [mapErase_same] at hk'
        simp at hk'
      · rw [mapErase_other _ hkk] at hk'
        rw [mapInsert_other _ _ hkk]
        exact h.countNoTimer k' hk'
    · intro k' i hi
      exact h.regLt k' i hi
    · intro k1 k2 i h1 h2
      exact h.regInj k1 k2 i h1 h2
  · rw [detach_eq_dec hc]
    constructor
    · intro k' t' hmt
      exact h.mapSound k' t' hmt
    · intro tr htr hncc hnff
      exact h.pendingInMap tr htr hncc hnff
    · intro tr htr
      exact h.timerIdLt tr htr
    · exact h.timerIdsDistinct
    · intro t ht
      exact h.canceledLt t ht
    · intro t ht
      exact h.firedLt t ht
    · intro k' c hcnt
      dsimp only at hcnt
      by_cases hkk : k' = k
      · subst hkk
        rw [mapInsert_same] at hcnt
        obtain rfl : ((s.refCounts k').getD 1) - 1 = c := by injection hcnt
        omega
      · rw [mapInsert_other _ _ hkk] at hcnt
        exact h.countsPos k' c hcnt
    · intro k' hk'
      dsimp only at hk' ⊢
      by_cases hkk : k' = k
      · subst hkk
        exact h.countNoTimer k' hk
      · rw [mapInsert_other _ _ hkk] at hk'
        exact h.countNoTimer k' hk'
    · intro k' i hi
      exact h.regLt k' i hi
    · intro k1 k2 i h1 h2
      exact h.regInj k1 k2 i h1 h2

theorem fireTimer_eq (s : State) (tr : TimerRec) :
    fireTimer s tr =
      { s with
          fired := tr.id :: s.fired
          registry :=
            if (s.refCounts tr.key).isSome then s.registry
            else mapErase s.registry tr.key
          deletionTimers := mapErase s.deletionTimers tr.key } := by
  unfold fireTimer Get.delete
  by_cases h : (s.refCounts tr.key).isSome <;> simp [h]

theorem inv_fire {s : State} (h : TrackerInv s) {tr : TimerRec}
    (hp : timerPending s tr) : TrackerInv (fireTimer s tr) := by
  obtain ⟨htr, hnc, hnf⟩ := hp
  have hmap := h.pendingInMap tr htr hnc hnf
  rw [fireTimer_eq]
  constructor
  · intro k' t' hmt
    dsimp only at hmt ⊢
    by_cases hkk : k' = tr.key
    · subst hkk
      rw [mapErase_same] at hmt
      exact Option.noConfusion hmt
    · rw [mapErase_other _ hkk] at hmt
      obtain ⟨tr', htr', hid, hkey, hnc', hnf'⟩ := h.mapSound k' t' hmt
      refine ⟨tr', htr', hid, hkey, hnc', ?_⟩
      intro hmem
      rcases List.mem_cons.mp hmem with heq | hmem'
      · subst heq
        have heqtr : tr' = tr := timer_id_inj h htr' htr hid
        exact hkk (by rw [← hkey, heqtr])
      · exact hnf' hmem'
  · intro tr' htr' hnc' hnf'
    dsimp only at htr' hnc' hnf' ⊢
    have hne : tr'.id ≠ tr.id := fun hx => hnf' (hx ▸ List.mem_cons_self _ _)
    have hnf'' : tr'.id ∉ s.fired := fun hx => hnf' (List.mem_cons_of_mem _ hx)
    have hmap' := h.pendingInMap tr' htr' hnc' hnf''
    by_cases hkk : tr'.key = tr.key
    · exfalso
      rw [hkk, hmap] at hmap'
      exact hne (Option.some.inj hmap').symm
    · rw [mapErase_other _ hkk]
      exact hmap'
  · intro tr' htr'
    exact h.timerIdLt tr' htr'
  · exact h.timerIdsDistinct
  · intro t ht
    exact h.canceledLt t ht
  · intro t ht
    dsimp only at ht
    rcases List.mem_cons.mp ht with heq | hm
    · subst heq
      exact h.timerIdLt tr htr
    · exact h.firedLt t hm
  · intro k' c hcnt
    exact h.countsPos k' c hcnt
  · intro k' hk'
    dsimp only at hk' ⊢
    by_cases hkk : k' = tr.key
    · subst hkk
      exact mapErase_same _ _
    · rw [mapErase_other _ hkk]
      exact h.countNoTimer k' hk'
  · intro k' i hi
    dsimp only at hi
    by_cases hrc : (s.refCounts tr.key).isSome
    · rw [if_pos hrc] at hi
      exact h.regLt k' i hi
    · rw [if_neg hrc] at hi
      by_cases hkk : k' = tr.key
      · subst hkk
        rw [mapErase_same] at hi
        exact Option.noConfusion hi
      · rw [mapErase_other _ hkk] at hi
        exact h.regLt k' i hi
  · intro k1 k2 i h1 h2
    dsimp only at h1 h2
    by_cases hrc : (s.refCounts tr.key).isSome
    · rw [if_pos hrc] at h1 h2
      exact h.regInj k1 k2 i h1 h2
    · rw [if_neg hrc] at h1 h2
      by_cases hk1 : k1 = tr.key
      · subst hk1
        rw [mapErase_same] at h1
        exact Option.noConfusion h1
      · by_cases hk2 : k2 = tr.key
        · subst hk2
          rw [mapErase_same] at h2
          exact Option.noConfusion h2
        · rw [mapErase_other _ hk1] at h1
          rw [mapErase_other _ hk2] at h2
          exact h.regInj k1 k2 i h1 h2

theorem putOk_eq_hit {s : State} {k : String} {i : Nat}
    (h : s.registry k = some i) : putOk s k = s := by
  simp [putOk, Get.put, h]

theorem putOk_eq_miss {s : State} {k : String}
    (h : s.registry k = none) :
    putOk s k =
      { s with
          registry := mapInsert s.registry k s.nextInstanceId
          nextInstanceId := s.nextInstanceId + 1 } := by
  simp [putOk, Get.put, h]

theorem inv_put {s : State} (h : TrackerInv s) (k : String) :
    TrackerInv (putOk s k) := by
  cases hr : s.registry k with
  | some i =>
    rw [putOk_eq_hit hr]
    exact h
  | none =>
    rw [putOk_eq_miss hr]
    constructor
    · intro k' t' hmt
      exact h.mapSound k' t' hmt
    · intro tr htr hnc hnf
      exact h.pendingInMap tr htr hnc hnf
    · intro tr htr
      exact h.timerIdLt tr htr
    · exact h.timerIdsDistinct
    · intro t ht
      exact h.canceledLt t ht
    · intro t ht
      exact h.firedLt t ht
    · intro k' c hc
      exact h.countsPos k' c hc
    · intro k' hk'
      exact h.countNoTimer k' hk'
    · intro k' i hi
      dsimp only at hi ⊢
      by_cases hkk : k' = k
      · subst hkk
        rw [mapInsert_same] at hi
        obtain rfl : s.nextInstanceId = i := by injection hi
        exact Nat.lt_succ_self _
      · rw [mapInsert_other _ _ hkk] at hi
        exact Nat.lt_succ_of_lt (h.regLt k' i hi)
    · intro k1 k2 i h1 h2
      dsimp only at h1 h2
      by_cases hk1 : k1 = k
      · by_cases hk2 : k2 = k
        · rw [hk1, hk2]
        · subst hk1
          rw [mapInsert_same] at h1
          rw [mapInsert_other _ _ hk2] at h2
          obtain rfl : s.nextInstanceId = i := by injection h1
          exact absurd (h.regLt k2 _ h2) (lt_irrefl _)
      · by_cases hk2 : k2 = k
        · subst hk2
          rw [mapInsert_same] at h2
          rw [mapInsert_other _ _ hk1] at h1
          obtain rfl : s.nextInstanceId = i := by injection h2
          exact absurd (h.regLt k1 _ h1) (lt_irrefl _)
        · rw [mapInsert_other _ _ hk1] at h1
          rw [mapInsert_other _ _ hk2] at h2
          exact h.regInj k1 k2 i h1 h2

theorem step_inv {s s' : State} (hs : Step s s') (h : TrackerInv s) :
    TrackerInv s' := by
  cases hs with
  | attach k => exact inv_attach h k
  | detach k hk => exact inv_detach h k hk
  | fire tr hp => exact inv_fire h hp
  | put k => exact inv_put h k

/-- Every reachable state satisfies the tracker invariant. -/
theorem reachable_inv {s : State} (h : Reachable s) : TrackerInv s := by
  induction h with
  | init => exact inv_init
  | step _ hs ih => exact step_inv hs ih

theorem step_canceled_mono {s s' : State} (hs : Step s s') :
    s.canceled ⊆ s'.canceled := by
  cases hs with
  | attach k => exact attach_canceled_sub s k
  | detach k hk =>
    by_cases hc : ((s.refCounts k).getD 1) - 1 ≤ (0 : Int)
    · rw [detach_eq_sched hc]
      exact List.Subset.refl _
    · rw [detach_eq_dec hc]
      exact List.Subset.refl _
  | fire tr hp =>
    rw [fireTimer_eq]
    exact List.Subset.refl _
  | put k =>
    cases hr : s.registry k with
    | some i =>
      rw [putOk_eq_hit hr]
      exact List.Subset.refl _
    | none =>
      rw [putOk_eq_miss hr]
      exact List.Subset.refl _

theorem steps_canceled_mono {s s' : State} (hs : Steps s s') :
    s.canceled ⊆ s'.canceled := by
  induction hs with
  | refl => exact List.Subset.refl _
  | tail _ h2 ih => exact List.Subset.trans ih (step_canceled_mono h2)

theorem mem_pendingFor {s : State} {k : String} {tr : TimerRec} :
    tr ∈ pendingFor s k ↔
      tr ∈ s.timers ∧ tr.key = k ∧ tr.id ∉ s.canceled ∧ tr.id ∉ s.fired := by
  simp [pendingFor, List.mem_filter, and_assoc]

/-- Under the invariant there is at most one timer per key that can
still fire. -/
theorem pendingFor_len_le_one {s : State} (h : TrackerInv s) (k : String) :
    (pendingFor s k).length ≤ 1 := by
  cases hl : pendingFor s k with
  | nil => simp
  | cons a tl =>
    cases tl with
    | nil => simp
    | cons b tl2 =>
      exfalso
      have hpw : (pendingFor s k).Pairwise (fun x y => x.id ≠ y.id) :=
        List.Pairwise.filter _ h.timerIdsDistinct
      rw [hl] at hpw
      have hne : a.id ≠ b.id := (List.pairwise_cons.mp hpw).1 b (by simp)
      have ha : a ∈ pendingFor s k := by rw [hl]; simp
      have hb : b ∈ pendingFor s k := by rw [hl]; simp
      obtain ⟨ha1, ha2, ha3, ha4⟩ := mem_pendingFor.mp ha
      obtain ⟨hb1, hb2, hb3, hb4⟩ := mem_pendingFor.mp hb
      have hma := h.pendingInMap a ha1 ha3 ha4
      have hmb := h.pendingInMap b hb1 hb3 hb4
      rw [ha2] at hma
      rw [hb2] at hmb
      rw [hma] at hmb
      exact hne (Option.some.inj hmb)

/-- Immediately after an attach, no timer for that key can fire any
more: attach cancels the mapped timer and by the invariant that was the
only live one. -/
theorem attach_pendingFor_nil {s : State} (h : TrackerInv s) (k : String) :
    pendingFor (attach s k) k = [] := by
  simp only [pendingFor]
  rw [List.filter_eq_nil_iff]
  intro tr htr
  rw [attach_timers] at htr
  intro hpred
  simp only [Bool.and_eq_true, beq_iff_eq, Bool.not_eq_true'] at hpred
  obtain ⟨⟨hkey, hncc⟩, hnff⟩ := hpred
  rw [attach_fired] at hnff
  have hnc : tr.id ∉ s.canceled := by
    intro hx
    have := attach_canceled_sub s k hx
    simp at hncc
    exact hncc this
  have hnf : tr.id ∉ s.fired := by
    intro hx
    simp at hnff
    exact hnff hx
  have hmap := h.pendingInMap tr htr hnc hnf
  rw [hkey] at hmap
  have hcc := attach_canceled_some s hmap
  simp at hncc
  exact hncc (by rw [hcc]; exact List.mem_cons_self _ _)

/-- One rapid mount/unmount: attach immediately followed by detach on
the same key. -/
def attachDetach (k : String) (s : State) : State := detach (attach s k) k

theorem attach_refCounts_self (s : State) (k : String) :
    (attach s k).refCounts k = some (((s.refCounts k).getD 0) + 1) := by
  rw [attach_refCounts, mapInsert_same]

theorem cycle_facts {s : State} {k : String} (h : TrackerInv s)
    (hk : s.refCounts k = none) :
    (attachDetach k s).refCounts k = none ∧
    (∀ k', k' ≠ k → (attachDetach k s).refCounts k' = s.refCounts k') ∧
    (attachDetach k s).registry = s.registry ∧
    (pendingFor (attachDetach k s) k).length = 1 := by
  have ha : TrackerInv (attach s k) := inv_attach h k
  have harc : (attach s k).refCounts k = some 1 := by
    rw [attach_refCounts_self, hk]
    rfl
  have hc : (((attach s k).refCounts k).getD 1) - 1 ≤ (0 : Int) := by
    rw [harc]
    simp
  unfold attachDetach
  rw [detach_eq_sched hc]
  refine ⟨?_, ?_, ?_, ?_⟩
  · dsimp only
    exact mapErase_same _ _
  · intro k' hk'
    dsimp only
    rw [mapErase_other _ hk', attach_refCounts, mapInsert_other _ _ hk']
  · dsimp only
    exact attach_registry s k
  · have hnc : (attach s k).nextTimerId ∉ (attach s k).canceled :=
      fun hx => absurd (ha.canceledLt _ hx) (lt_irrefl _)
    have hnf : (attach s k).nextTimerId ∉ (attach s k).fired :=
      fun hx => absurd (ha.firedLt _ hx) (lt_irrefl _)
    have h1 : (attach s k).timers.filter
        (fun tr => tr.key == k && !((attach s k).canceled.contains tr.id)
          && !((attach s k).fired.contains tr.id)) = [] := by
      have hnil := attach_pendingFor_nil h k
      simpa [pendingFor] using hnil
    simp only [pendingFor]
    rw [List.filter_append, h1]
    simp [hnc, hnf]

theorem cycle_reachable {s : State} (hr : Reachable s) (k : String) :
    Reachable (attachDetach k s) := by
  have h1 : Reachable (attach s k) := Reachable.step hr (Step.attach s k)
  refine Reachable.step h1 (Step.detach (attach s k) k ?_)
  rw [attach_refCounts_self]
  rfl

theorem cycle_iter_reachable {s : State} (hr : Reachable s) (k : String) :
    ∀ n : Nat, Reachable ((attachDetach k)^[n] s) := by
  intro n
  induction n with
  | zero => simpa using hr
  | succ m ih =>
    rw [Function.iterate_succ_apply']
    exact cycle_reachable ih k

/-- C2: Detach(key) decrements the live count for the key; if the
resulting count is ≤ 0 it removes the key from the live-count map
entirely (never storing zero or a negative value) and exactly in that
case schedules one fresh one-shot eviction timer of the grace duration,
storing its handle under the key in the pending-timer map; otherwise it
stores the decremented count and schedules nothing. -/
theorem c2_detach_spec (s : State) (k : String) :
    if ((s.refCounts k).getD 1) - 1 ≤ (0 : Int) then
      (detach s k).refCounts k = none ∧
      (detach s k).deletionTimers k = some s.nextTimerId ∧
      (⟨s.nextTimerId, k, GC_GRACE_PERIOD_MS⟩ : TimerRec) ∈ (detach s k).timers ∧
      (detach s k).timers.length = s.timers.length + 1
    else
      (detach s k).refCounts k = some (((s.refCounts k).getD 1) - 1) ∧
      (detach s k).deletionTimers = s.deletionTimers ∧
      (detach s k).timers = s.timers ∧
      (detach s k).canceled = s.canceled := by
  by_cases hc : ((s.refCounts k).getD 1) - 1 ≤ (0 : Int)
  · rw [if_pos hc, detach_eq_sched hc]
    refine ⟨mapErase_same _ _, mapInsert_same _ _ _, ?_, ?_⟩
    · exact List.mem_append_right _ (List.mem_singleton_self _)
    · simp
  · rw [if_neg hc, detach_eq_dec hc]
    exact ⟨mapInsert_same _ _ _, rfl, rfl, rfl⟩

/-- C3: Attach(key) first cancels and removes any pending eviction
timer for the key from the pending-timer map, and then increments the
live count for the key, with an absent key going to 1 and a present key
to count + 1; other keys are untouched. -/
theorem c3_attach_spec (s : State) (k : String) :
    (attach s k).refCounts k = some (((s.refCounts k).getD 0) + 1) ∧
    (attach s k).deletionTimers k = none ∧
    (∀ t, s.deletionTimers k = some t → t ∈ (attach s k).canceled) ∧
    (∀ k', k' ≠ k → (attach s k).deletionTimers k' = s.deletionTimers k' ∧
      (attach s k).refCounts k' = s.refCounts k') := by
  refine ⟨attach_refCounts_self s k, ?_, ?_, ?_⟩
  · rw [attach_deletionTimers]
    exact mapErase_same _ _
  · intro t ht
    rw [attach_canceled_some s ht]
    exact List.mem_cons_self _ _
  · intro k' hk'
    constructor
    · rw [attach_deletionTimers, mapErase_other _ hk']
    · rw [attach_refCounts, mapInsert_other _ _ hk']

theorem c3_witness :
    (detach initState "k").deletionTimers "k" = some 0 ∧
    0 ∈ (attach (detach initState "k") "k").canceled := by
  refine ⟨by decide, (c3_attach_spec (detach initState "k") "k").2.2.1 0 (by decide)⟩

/-- C5 fails as stated: from the empty state, two unpaired detaches on
one key put the system in a state where Detach had to schedule a timer
while one already existed; the map entry is replaced (timer 1 overwrites
timer 0) but the old timer is not cleared — it is still pending, so it
can still fire, and two pending timers coexist for the key. -/
theorem c5_counterexample :
    (detach initState "k").deletionTimers "k" = some 0 ∧
    (detach (detach initState "k") "k").deletionTimers "k" = some 1 ∧
    timerPending (detach (detach initState "k") "k")
      ⟨0, "k", GC_GRACE_PERIOD_MS⟩ ∧
    (pendingFor (detach (detach initState "k") "k") "k").length = 2 := by
  decide

/-- C5 (amended): in every state reachable under correct Attach/Detach
pairing (a detach only happens for a key with a live count) there is at
most one pending eviction timer per key; when Detach schedules a timer
while a pending-timer map entry already exists, the new handle replaces
the map entry but the old timer is not canceled and can still fire. -/
theorem c5_at_most_one_pending {s : State} (h : Reachable s) (k : String) :
    (pendingFor s k).length ≤ 1 :=
  pendingFor_len_le_one (reachable_inv h) k

theorem c5_witness :
    Reachable (attachDetach "k" initState) ∧
    (pendingFor (attachDetach "k" initState) "k").length = 1 ∧
    (pendingFor (attachDetach "k" initState) "k").length ≤ 1 := by
  refine ⟨cycle_reachable Reachable.init "k", by decide,
    c5_at_most_one_pending (cycle_reachable Reachable.init "k") "k"⟩

/-- C6 fails as stated: a Detach for a key with no recorded live count
does not leave the tracker state unchanged — it schedules a fresh grace
eviction timer for that key (the live-count map and the registry are
unchanged and no error propagates, but the pending-timer map gains an
entry and a new timer is created). -/
theorem c6_counterexample :
    initState.refCounts "k" = none ∧
    initState.deletionTimers "k" = none ∧
    (detach initState "k").deletionTimers "k" = some 0 ∧
    (⟨0, "k", GC_GRACE_PERIOD_MS⟩ : TimerRec) ∈ (detach initState "k").timers := by
  decide

/-- C6 (amended): a Detach for a key with no recorded live count
propagates no error and leaves the live-count map and the registry
unchanged, but it does schedule a grace eviction timer for the key,
storing its handle in the pending-timer map. -/
theorem c6_detach_unknown (s : State) (k : String)
    (h : s.refCounts k = none) :
    (∀ k', (detach s k).refCounts k' = s.refCounts k') ∧
    (detach s k).registry = s.registry ∧
    (detach s k).deletionTimers k = some s.nextTimerId ∧
    (⟨s.nextTimerId, k, GC_GRACE_PERIOD_MS⟩ : TimerRec) ∈ (detach s k).timers := by
  have hc : ((s.refCounts k).getD 1) - 1 ≤ (0 : Int) := by
    rw [h]
    simp
  rw [detach_eq_sched hc]
  refine ⟨?_, rfl, mapInsert_same _ _ _, ?_⟩
  · intro k'
    by_cases hk' : k' = k
    · subst hk'
      show mapErase s.refCounts k' k' = s.refCounts k'
      rw [mapErase_same, h]
    · exact mapErase_other _ hk'
  · exact List.mem_append_right _ (List.mem_singleton_self _)

theorem c6_witness :
    initState.refCounts "k" = none ∧
    (detach initState "k").deletionTimers "k" = some initState.nextTimerId := by
  exact ⟨rfl, (c6_detach_unknown initState "k" rfl).2.2.1⟩

/-- C7: in every reachable state, every count stored in the live-count
map is strictly positive — a key whose count would drop to zero or
below is deleted rather than stored, and attach only stores values ≥ 1. -/
theorem c7_counts_positive {s : State} (h : Reachable s) :
    ∀ k c, s.refCounts k = some c → 0 < c :=
  (reachable_inv h).countsPos

theorem c7_witness :
    Reachable (attach initState "k") ∧
    (attach initState "k").refCounts "k" = some 1 ∧ (0 : Int) < 1 := by
  refine ⟨Reachable.step Reachable.init (Step.attach initState "k"), by decide,
    c7_counts_positive (Reachable.step Reachable.init (Step.attach initState "k"))
      "k" 1 (by decide)⟩

/-- C1: a registry entry is never evicted by a fired grace timer while
its reference count is positive.  First, the fire handler re-checks the
live-count map and leaves the registry untouched whenever the key is
present in it.  Second, for every key, if an attach happens strictly
before a previously scheduled pending eviction timer for that key fires,
that timer can never fire afterwards (attach cancels it), so it never
deletes the key's instance. -/
theorem c1_no_eviction_while_referenced :
    (∀ (s : State) (tr : TimerRec), (s.refCounts tr.key).isSome = true →
      (fireTimer s tr).registry = s.registry) ∧
    (∀ (s s' : State) (tr : TimerRec), Reachable s → timerPending s tr →
      Steps (attach s tr.key) s' → ¬ timerPending s' tr) := by
  constructor
  · intro s tr h
    rw [fireTimer_eq]
    show (if (s.refCounts tr.key).isSome then s.registry
      else mapErase s.registry tr.key) = s.registry
    rw [if_pos h]
  · intro s s' tr hr hp hsteps
    have hinv := reachable_inv hr
    obtain ⟨htr, hnc, hnf⟩ := hp
    have hmap := hinv.pendingInMap tr htr hnc hnf
    have hcanc : tr.id ∈ (attach s tr.key).canceled := by
      rw [attach_canceled_some s hmap]
      exact List.mem_cons_self _ _
    intro hp'
    exact hp'.2.1 (steps_canceled_mono hsteps hcanc)

theorem c1_witness :
    ((attach initState "k").refCounts "k").isSome = true ∧
    (fireTimer (attach initState "k") ⟨0, "k", GC_GRACE_PERIOD_MS⟩).registry
      = (attach initState "k").registry ∧
    Reachable (attachDetach "k" initState) ∧
    timerPending (attachDetach "k" initState) ⟨0, "k", GC_GRACE_PERIOD_MS⟩ ∧
    ¬ timerPending (attach (attachDetach "k" initState) "k")
      ⟨0, "k", GC_GRACE_PERIOD_MS⟩ := by
  refine ⟨by decide,
    c1_no_eviction_while_referenced.1 (attach initState "k")
      ⟨0, "k", GC_GRACE_PERIOD_MS⟩ (by decide),
    cycle_reachable Reachable.init "k", by decide,
    c1_no_eviction_while_referenced.2 (attachDetach "k" initState)
      (attach (attachDetach "k" initState) "k") ⟨0, "k", GC_GRACE_PERIOD_MS⟩
      (cycle_reachable Reachable.init "k") (by decide)
      Relation.ReflTransGen.refl⟩

/-- C4: for every key and every N ≥ 1, starting from any reachable
state with no live count for the key, performing attach immediately
followed by detach N times in a row (no timer firing in between) leaves
the live-count map with no entry for the key and exactly one pending
eviction timer for that key (not N); the registry and the counts of all
other keys are exactly as before. -/
theorem c4_rapid_cycles (s : State) (k : String) (N : Nat)
    (hr : Reachable s) (hN : 1 ≤ N) (hk : s.refCounts k = none) :
    ((attachDetach k)^[N] s).refCounts k = none ∧
    (pendingFor ((attachDetach k)^[N] s) k).length = 1 ∧
    ((attachDetach k)^[N] s).registry = s.registry ∧
    (∀ k', k' ≠ k → ((attachDetach k)^[N] s).refCounts k' = s.refCounts k') := by
  obtain ⟨n, rfl⟩ : ∃ n, N = n + 1 := ⟨N - 1, by omega⟩
  clear hN
  induction n with
  | zero =>
    rw [Function.iterate_succ_apply', Function.iterate_zero_apply]
    obtain ⟨g1, g2, g3, g4⟩ := cycle_facts (reachable_inv hr) hk
    exact ⟨g1, g4, g3, g2⟩
  | succ m ih =>
    obtain ⟨h1, h2, h3, h4⟩ := ih
    have hreach : Reachable ((attachDetach k)^[m + 1] s) :=
      cycle_iter_reachable hr k (m + 1)
    obtain ⟨g1, g2, g3, g4⟩ := cycle_facts (reachable_inv hreach) h1
    rw [Function.iterate_succ_apply']
    refine ⟨g1, g4, ?_, ?_⟩
    · rw [g3, h3]
    · intro k' hk'
      rw [g2 k' hk', h4 k' hk']

theorem c4_witness :
    Reachable initState ∧ 1 ≤ 3 ∧ initState.refCounts "k" = none ∧
    (((attachDetach "k")^[3] initState).refCounts "k" = none ∧
      (pendingFor ((attachDetach "k")^[3] initState) "k").length = 1 ∧
      ((attachDetach "k")^[3] initState).registry = initState.registry ∧
      (∀ k', k' ≠ "k" →
        ((attachDetach "k")^[3] initState).refCounts k' = initState.refCounts k')) := by
  exact ⟨Reachable.init, by omega, rfl,
    c4_rapid_cycles initState "k" 3 Reachable.init (by omega) rfl⟩

theorem put_snd_of_hit {s : State} {k : String} {i : Nat}
    (h : s.registry k = some i) : (Get.put s k true).2 = Except.ok i := by
  simp [Get.put, h]

theorem put_ok_stores {s : State} {k : String} {i : Nat}
    (h : (Get.put s k true).2 = Except.ok i) :
    (putOk s k).registry k = some i := by
  cases hr : s.registry k with
  | some j =>
    rw [putOk_eq_hit hr, hr]
    have : j = i := by
      have := put_snd_of_hit hr
      rw [this] at h
      exact Except.ok.inj h
    rw [this]
  | none =>
    rw [putOk_eq_miss hr]
    have hi : s.nextInstanceId = i := by
      have h2 : (Get.put s k true).2 = Except.ok s.nextInstanceId := by
        simp [Get.put, hr]
      rw [h2] at h
      exact Except.ok.inj h
    show mapInsert s.registry k s.nextInstanceId k = some i
    rw [mapInsert_same, hi]

/-- C8: if the constructor fails while `put` must create a new
instance, the failure propagates synchronously to the caller of `put`,
no entry is stored under the key, the whole state is unchanged, and in
particular the tracker records no count for that key (the attach of the
mount effect never runs). -/
theorem c8_construction_failure (s : State) (k : String)
    (h : s.registry k = none) :
    (useGetMount s k false).2 = Except.error () ∧
    (useGetMount s k false).1.registry k = none ∧
    (useGetMount s k false).1.refCounts k = s.refCounts k ∧
    (useGetMount s k false).1 = s := by
  have hput : Get.put s k false = (s, Except.error ()) := by
    simp [Get.put, h]
  refine ⟨?_, ?_, ?_, ?_⟩ <;> simp [useGetMount, hput, h]

theorem c8_witness :
    initState.registry "k" = none ∧
    (useGetMount initState "k" false).2 = Except.error () := by
  exact ⟨rfl, (c8_construction_failure initState "k" rfl).1⟩

/-- C9 fails as stated: in the source an empty supplied tag is falsy,
so the key degenerates to the bare type identifier instead of the
identifier, a hyphen and the (empty) tag. -/
theorem c9_counterexample :
    computeKey "Counter" (some "") = "Counter" ∧
    computeKey "Counter" (some "") ≠ "Counter" ++ "-" ++ "" := by
  decide

/-- C9 (amended): the key used by both the registry and the tracker is
the base type identifier alone when no tag — or a falsy empty tag — is
supplied, and the identifier, a hyphen and the tag when a nonempty tag
is supplied.  Two puts with the same key observe the same instance, and
starting from any reachable state, puts under two different keys
observe different instances. -/
theorem c9_key_and_sharing :
    (∀ name, computeKey name none = computeBaseTag name) ∧
    (∀ name t, t ≠ "" →
      computeKey name (some t) = computeBaseTag name ++ "-" ++ t) ∧
    (∀ (s : State) (k : String) (i : Nat),
      (Get.put s k true).2 = Except.ok i →
      (Get.put (putOk s k) k true).2 = Except.ok i) ∧
    (∀ (s : State) (k k' : String) (i i' : Nat), Reachable s → k ≠ k' →
      (Get.put s k true).2 = Except.ok i →
      (Get.put (putOk s k) k' true).2 = Except.ok i' →
      i ≠ i') := by
  refine ⟨fun name => rfl, ?_, ?_, ?_⟩
  · intro name t ht
    simp [computeKey, ht]
  · intro s k i h
    exact put_snd_of_hit (put_ok_stores h)
  · intro s k k' i i' hr hkk h1 h2
    have hinv : TrackerInv (putOk s k) :=
      reachable_inv (Reachable.step hr (Step.put s k))
    have hik : (putOk s k).registry k = some i := put_ok_stores h1
    cases hr2 : (putOk s k).registry k' with
    | some j =>
      have : j = i' := by
        have := put_snd_of_hit hr2
        rw [this] at h2
        exact Except.ok.inj h2
      subst this
      intro hii
      subst hii
      exact hkk (hinv.regInj k k' i hik hr2)
    | none =>
      have hi' : (putOk s k).nextInstanceId = i' := by
        have h3 : (Get.put (putOk s k) k' true).2
            = Except.ok (putOk s k).nextInstanceId := by
          simp [Get.put, hr2]
        rw [h3] at h2
        exact Except.ok.inj h2
      have hlt := hinv.regLt k i hik
      omega

theorem c9_witness :
    ("a" : String) ≠ "" ∧
    computeKey "Counter" (some "a") = computeBaseTag "Counter" ++ "-" ++ "a" ∧
    Reachable initState ∧ ("a" : String) ≠ "b" ∧
    (Get.put initState "a" true).2 = Except.ok 0 ∧
    (Get.put (putOk initState "a") "b" true).2 = Except.ok 1 ∧
    (0 : Nat) ≠ 1 := by
  refine ⟨by decide, c9_key_and_sharing.2.1 "Counter" "a" (by decide),
    Reachable.init, by decide, by rfl, by rfl,
    c9_key_and_sharing.2.2.2 initState "a" "b" 0 1 Reachable.init
      (by decide) (by rfl) (by rfl)⟩

/-- C10: a controller class with an empty name falls back to the
literal base key "AnonymousController" (plus the optional hyphen-tag
suffix for a nonempty tag), so anonymous classes used without a
distinguishing tag all map to that one key and therefore share one
cached instance and one reference count. -/
theorem c10_anonymous_fallback :
    computeKey "" none = "AnonymousController" ∧
    (∀ t, t ≠ "" →
      computeKey "" (some t) = "AnonymousController" ++ "-" ++ t) ∧
    (∀ (s : State) (i : Nat),
      (Get.put s (computeKey "" none) true).2 = Except.ok i →
      (Get.put (putOk s (computeKey "" none)) (computeKey "" none) true).2
        = Except.ok i) ∧
    (∀ s : State, s.refCounts (computeKey "" none) = none →
      (attach (attach s (computeKey "" none)) (computeKey "" none)).refCounts
        (computeKey "" none) = some 2) := by
  refine ⟨rfl, ?_, ?_, ?_⟩
  · intro t ht
    simp [computeKey, computeBaseTag, ht]
  · intro s i h
    exact put_snd_of_hit (put_ok_stores h)
  · intro s h
    rw [attach_refCounts_self, attach_refCounts_self, h]
    rfl

theorem c10_witness :
    ("x" : String) ≠ "" ∧
    computeKey "" (some "x") = "AnonymousController" ++ "-" ++ "x" ∧
    initState.refCounts (computeKey "" none) = none ∧
    (attach (attach initState (computeKey "" none))
      (computeKey "" none)).refCounts (computeKey "" none) = some 2 := by
  refine ⟨by decide, c10_anonymous_fallback.2.1 "x" (by decide), rfl,
    c10_anonymous_fallback.2.2.2 initState rfl⟩
